import Mathlib

/-!
Verification of the anansi client-side rendering runtime (anansi-aux/src/lib.rs).

The development shallowly embeds the parts of the runtime that the checked
properties speak about:

* the virtual-node model (`Rsx`, `Elem`, `Comp`) and its reconciliation against
  a live tree (`Elem.to_node`, `Elem.diff`, `update`, `check_siblings`);
* the live tree itself, modelled as trees with explicit node identities
  (`LNode`); a mutable `&mut Node` reference into a sibling list is modelled as
  the pair of the parent's ordered child list and an index into it;
* the process-wide registries and counters (`Env`): the callback table, the
  recall table, the active node id, the active id list, and the `RID` counter;
  executions of registered `fn()` pointers are recorded in an event log;
* the reactive proxies (`SignalProxy`, `Proxy`, `Signal`) and the hydrated
  application state (`AppState`, `Obj`);
* the ordered shared-child collection (`RefVec`).

Fallible paths of the source (`unwrap`, `expect`, `panic!`-equivalents,
`unimplemented!`) are modelled by `Option`, with `none` standing for a panic
that aborts the entry point.
-/

/-! ### Association lists

`HashMap<String, V>` values are modelled as association lists with unique keys
maintained by construction; `alInsert` replaces an existing binding the way
`HashMap::insert` does, `alRemove` models `HashMap::remove`. -/

def alLookup {β : Type} : List (String × β) → String → Option β
  | [], _ => none
  | p :: rest, k => if p.1 == k then some p.2 else alLookup rest k

def alInsert {β : Type} (m : List (String × β)) (k : String) (v : β) :
    List (String × β) :=
  (k, v) :: m.filter (fun p => !(p.1 == k))

def alRemove {β : Type} (m : List (String × β)) (k : String) :
    List (String × β) :=
  m.filter (fun p => !(p.1 == k))

/-! ### String splitting

Models of Rust's `str::split_once` (split at the first occurrence of a
character) and `str::rsplit_once` (split at the last occurrence). -/

def splitOnceAux : List Char → Char → Option (List Char × List Char)
  | [], _ => none
  | c :: cs, ch =>
    if c = ch then some ([], cs)
    else
      match splitOnceAux cs ch with
      | some (l, r) => some (c :: l, r)
      | none => none

def splitOnce (s : String) (ch : Char) : Option (String × String) :=
  match splitOnceAux s.toList ch with
  | some (l, r) => some (String.mk l, String.mk r)
  | none => none

def rsplitOnceAux : List Char → Char → Option (List Char × List Char)
  | [], _ => none
  | c :: cs, ch =>
    match rsplitOnceAux cs ch with
    | some (l, r) => some (c :: l, r)
    | none => if c = ch then some ([], cs) else none

def rsplitOnce (s : String) (ch : Char) : Option (String × String) :=
  match rsplitOnceAux s.toList ch with
  | some (l, r) => some (String.mk l, String.mk r)
  | none => none

/-- Rust's `str::split(char)`: split at every occurrence, keeping empty
fields (an empty input yields one empty field). -/
def splitCharAux (l : List Char) (ch : Char) : List (List Char) :=
  match l with
  | [] => [[]]
  | c :: cs =>
    if c = ch then [] :: splitCharAux cs ch
    else
      match splitCharAux cs ch with
      | [] => [[c]]
      | f :: rest => (c :: f) :: rest

def splitChar (s : String) (ch : Char) : List String :=
  (splitCharAux s.toList ch).map String.mk

/-- `str::starts_with("on:")`, as a character-list prefix test. -/
def startsWithOn (k : String) : Bool :=
  "on:".toList.isPrefixOf k.toList

/-! ### Registries and global state

`CallbackData` keeps the two registered `fn` pointers as opaque numeric
identifiers (`newId` for `new`, `callId` for `call`); running one of them is
recorded as an `Event` in a log.  `Env` gathers the thread-local globals the
checked entry points touch: `CALLBACKS`, `RECALLS`, `NODE_ID`, `IDS`, `RID`,
plus the document's fresh-node allocator (`nextId`). -/

structure CallbackData where
  newId : Nat
  callId : Nat
  is_mounted : Bool
deriving Repr, DecidableEq

inductive Event where
  | construct (f : Nat) (nodeId : String)
  | invoke (f : Nat)
deriving Repr, DecidableEq

structure Env where
  callbacks : List (String × CallbackData)
  recalls : List (String × Nat)
  node_id : String
  ids : List String
  rid : Nat
  nextId : Nat
  log : List Event
deriving Repr, DecidableEq

/-- Marks the callback named `k` as mounted (`cb.is_mounted = true` through
`get_mut`). -/
def setMounted (m : List (String × CallbackData)) (k : String) :
    List (String × CallbackData) :=
  m.map (fun p => if p.1 == k then (p.1, { p.2 with is_mounted := true }) else p)

/-! ### Reactive proxies -/

/-- `pub type Sub = (u32, i64);` (named `SubPair` here because `Sub` is taken
by the core subtraction class). -/
abbrev SubPair := Nat × Int

structure SignalProxy where
  _learning : Bool
  _invalid : Bool
  _node : Nat
  _dirty : Int
  _sub : SubPair
deriving Repr, DecidableEq

def SignalProxy.new : SignalProxy :=
  { _learning := false, _invalid := false, _node := 0, _dirty := -1, _sub := (0, 0) }

def SignalProxy.from (_sub : SubPair) : SignalProxy :=
  { _learning := false, _invalid := false, _node := 0, _dirty := -1, _sub := _sub }

def SignalProxy.set (p : SignalProxy) : SignalProxy :=
  if p._learning then { p with _sub := (p._node, 0) }
  else
    let d := if p._dirty = -1 then 0 else p._dirty
    { p with _dirty := Int.lor d 1 }

structure Proxy where
  _learning : Bool
  _invalid : Bool
  _node : Nat
  _dirty : Int
  _subs : List SubPair
deriving Repr, DecidableEq

def Proxy.new (subs : List SubPair) : Proxy :=
  { _learning := false, _invalid := false, _node := 0, _dirty := -1, _subs := subs }

def Proxy.set (p : Proxy) (n : Int) : Proxy :=
  if p._learning then { p with _subs := p._subs ++ [(p._node, n)] }
  else
    let d := if p._dirty = -1 then 0 else p._dirty
    { p with _dirty := Int.lor d n }

def Proxy.start_proxy (p : Proxy) : List SubPair × Proxy :=
  (p._subs, { p with _learning := true, _invalid := false, _dirty := -1, _subs := [] })

def Proxy.stop_proxy (p : Proxy) (subs : List SubPair) : Proxy :=
  { p with _subs := subs, _learning := false }

/-! ### Hydrated application state

`serde_json::Value` payloads are opaque to the checked properties; an `Obj.Js`
carries its literal text, and `Signal::resume`'s `serde_json::from_value` is
modelled as handing that payload through unchanged. -/

inductive Obj where
  | Rs (r : Nat)
  | Js (v : String)
deriving Repr, DecidableEq

structure AppState where
  objs : List Obj
  subs : List (List SubPair)
deriving Repr, DecidableEq

structure Signal where
  _proxy : SignalProxy
  value : String
deriving Repr, DecidableEq

/-- `Signal::resume`: requires the object-table slot to be a host (`Js`) value,
pops the most recently appended subscriber list off `store.subs` (`Vec::pop`
takes the last element) and seeds the proxy with that list's first pair.
Failing `expect`/indexing panics are `none`. -/
def Signal.resume (store : AppState) (n : Nat) : Option (Signal × AppState) :=
  match store.objs[n]? with
  | some (Obj.Js v) =>
    match store.subs.getLast? with
    | some subs =>
      match subs[0]? with
      | some sub =>
        some ({ _proxy := SignalProxy.from sub, value := v },
              { store with subs := store.subs.dropLast })
      | none => none
    | none => none
  | _ => none

/-! ### Ordered shared-child collection -/

/-- An element of a `RefVec`: the `RefChild` implementor, knowing its own
position.  The `Rc<RefCell<..>>` wrapper is identity-irrelevant here; `remove`
returns the detached element itself. -/
structure RefChildData (α : Type) where
  pos : Nat
  item : α
deriving Repr, DecidableEq

structure RefVec (α : Type) where
  items : List (RefChildData α)
deriving Repr, DecidableEq

def RefVec.push {α : Type} (v : RefVec α) (t : α) : RefVec α :=
  { items := v.items ++ [{ pos := v.items.length, item := t }] }

/-- `RefVec::remove`: `split_off(index + 1)` (panics -> `none` if out of
range), `pop` the detached element, decrement the position of every element of
the split-off tail (`usize` subtraction; under the collection invariant every
such position is at least 1, so plain truncated subtraction is exact), then
re-append the tail. -/
def RefVec.remove {α : Type} (v : RefVec α) (index : Nat) :
    Option (RefChildData α × RefVec α) :=
  if index + 1 ≤ v.items.length then
    let first := v.items.take (index + 1)
    let rest := v.items.drop (index + 1)
    match first.getLast? with
    | some removed =>
      some (removed,
            { items := first.dropLast ++ rest.map (fun c => { c with pos := c.pos - 1 }) })
    | none => none
  else none

/-! ### Virtual nodes -/

structure Attribute where
  key : String
  value : String
deriving Repr, DecidableEq

mutual
inductive Rsx where
  | Component (comp : Comp) : Rsx
  | Element (elem : Elem) : Rsx
  | Text (s : String) : Rsx
deriving Repr

inductive Elem where
  | mk (name : String) (attrs : List Attribute) (children : List Rsx) : Elem
deriving Repr

inductive Comp where
  | mk (children : List Rsx) : Comp
deriving Repr
end

def Elem.name : Elem → String
  | .mk n _ _ => n

def Elem.attrs : Elem → List Attribute
  | .mk _ a _ => a

def Elem.children : Elem → List Rsx
  | .mk _ _ c => c

def Comp.children : Comp → List Rsx
  | .mk c => c

/-! ### Live nodes

A live document node, with its identity made explicit as an `id` assigned at
creation time.  Element attributes are kept as a key-unique ordered list, the
way the host document stores a `NamedNodeMap`. -/

inductive LNode where
  | elem (id : Nat) (tag : String) (attrs : List Attribute) (kids : List LNode)
  | text (id : Nat) (content : String)
  | comment (id : Nat) (content : String)
deriving Repr

/-- `Node::node_name()` (tag-name case folding by the host is abstracted away:
tags are compared as given). -/
def LNode.node_name : LNode → String
  | .elem _ tag _ _ => tag
  | .text _ _ => "#text"
  | .comment _ _ => "#comment"

def LNode.kids : LNode → List LNode
  | .elem _ _ _ ks => ks
  | _ => []

def LNode.first_child : LNode → Option LNode
  | .elem _ _ _ (k :: _) => some k
  | _ => none

def LNode.setKids : LNode → List LNode → LNode
  | .elem i t a _, ks => .elem i t a ks
  | nd, _ => nd

/-- `Attr` map read: `attributes.get_named_item(key)`. -/
def getNamedItem : List Attribute → String → Option String
  | [], _ => none
  | a :: rest, k => if a.key == k then some a.value else getNamedItem rest k

/-- `Element::set_attribute`: replace the value in place if the key is already
present, append otherwise. -/
def setAttr : List Attribute → String → String → List Attribute
  | [], k, v => [⟨k, v⟩]
  | a :: rest, k, v => if a.key == k then ⟨k, v⟩ :: rest else a :: setAttr rest k v

/-- Insert `x` at position `i` of `l` (the effect of
`parent.insert_before(x, l[i])` on the parent's child list). -/
def insertAt {α : Type} (l : List α) (i : Nat) (x : α) : List α :=
  l.take i ++ x :: l.drop i

/-- The `rid` attribute of an element node, if any. -/
def ridOf : LNode → Option String
  | .elem _ _ attrs _ => getNamedItem attrs "rid"
  | _ => none

/-- The recall-retirement half of `remove_recall`/`replace_recall`: if the
node is an element carrying a `rid` attribute, drop that entry from the recall
table. -/
def retireRid (nd : LNode) (recalls : List (String × Nat)) : List (String × Nat) :=
  match ridOf nd with
  | some r => alRemove recalls r
  | none => recalls

/-- `sib.node_type() == Node::COMMENT_NODE && sib.text_content() == "/av"`. -/
def isCloseAv : LNode → Bool
  | .comment _ t => t == "/av"
  | _ => false

/-! ### Materialization: `Elem::to_node` / `Rsx::to_node` -/

/-- The attribute loop of `Elem::to_node`: ordinary attributes are
`set_attribute`d; an `on:`-prefixed attribute instead registers a recall entry
under the current `RID` (also written onto the node as its `rid` attribute)
and bumps the counter.  A missing `[` in the attribute value or an unknown
callback name is an `unwrap` panic (`none`). -/
def procAttrs : List Attribute → List Attribute → Env → Option (List Attribute × Env)
  | [], acc, env => some (acc, env)
  | a :: rest, acc, env =>
    if !(startsWithOn a.key) then
      procAttrs rest (setAttr acc a.key a.value) env
    else
      match splitOnce a.value '[' with
      | none => none
      | some (v, _) =>
        match alLookup env.callbacks v with
        | none => none
        | some cb =>
          let rs := toString env.rid
          let acc := setAttr acc "rid" rs
          let env := { env with
            recalls := alInsert env.recalls rs cb.callId,
            rid := env.rid + 1 }
          procAttrs rest acc env

mutual
/-- `Elem::to_node`: create a fresh element, run the attribute loop, then
recursively materialize and append the children. -/
def Elem.to_node (e : Elem) (env : Env) : Option (LNode × Env) :=
  match e with
  | .mk name attrs children =>
    let id := env.nextId
    let env := { env with nextId := id + 1 }
    match procAttrs attrs [] env with
    | none => none
    | some (lattrs, env) =>
      match toNodeList children env with
      | none => none
      | some (kids, env) => some (LNode.elem id name lattrs kids, env)

def toNodeList (cs : List Rsx) (env : Env) : Option (List LNode × Env) :=
  match cs with
  | [] => some ([], env)
  | c :: rest =>
    match Rsx.to_node c env with
    | none => none
    | some (nd, env) =>
      match toNodeList rest env with
      | none => none
      | some (nds, env) => some (nd :: nds, env)

/-- `Rsx::to_node`: an element materializes through `Elem::to_node`, a text
virtual node becomes a fresh text node, a component is `unimplemented!()`. -/
def Rsx.to_node (r : Rsx) (env : Env) : Option (LNode × Env) :=
  match r with
  | .Element e => Elem.to_node e env
  | .Text t =>
    let id := env.nextId
    some (LNode.text id t, { env with nextId := id + 1 })
  | .Component _ => none
end

/-! ### Patching: `Elem::diff`, `set_content`, `Rsx::edit` -/

/-- The attribute equality scan of `Elem::diff`: a virtual attribute whose key
is absent from the live node is not compared at all; only values of keys the
live node has can flag a mismatch. -/
def sameAttrs (vattrs lattrs : List Attribute) : Bool :=
  vattrs.all fun a =>
    match getNamedItem lattrs a.key with
    | some v => v == a.value
    | none => true

/-- `Elem::diff` against the live node `kids[idx]` (a `&mut Node` borrowed out
of its parent's child list).  Same tag: the attribute sets are compared but the
node is left untouched on every outcome (the scan only gates the early
return; there is no attribute-patching step).  Different tag: materialize a
full new tree, `insert_before` it at the old node's position and repoint the
reference (`*node = new`), leaving the old node as the next sibling. -/
def Elem.diff (e : Elem) (kids : List LNode) (idx : Nat) (env : Env) :
    Option (List LNode × Nat × Env) :=
  match kids[idx]? with
  | none => none
  | some nd =>
    if e.name == nd.node_name then
      match nd with
      | .elem _ _ attributes _ =>
        if e.attrs.length == attributes.length then
          if sameAttrs e.attrs attributes then
            some (kids, idx, env)
          else
            some (kids, idx, env)
        else
          some (kids, idx, env)
      | _ => none
    else
      match Elem.to_node e env with
      | none => none
      | some (new, env) => some (insertAt kids idx new, idx, env)

/-- `add_sibling(node, new)`: `after_with_node_1` on an element or text node
inserts `new` directly after it; any other node type is `unimplemented!()`. -/
def add_sibling (kids : List LNode) (idx : Nat) (new : LNode) : Option (List LNode) :=
  match kids[idx]? with
  | none => none
  | some nd =>
    match nd with
    | .comment _ _ => none
    | _ => some (insertAt kids (idx + 1) new)

/-- `Rsx::edit`: materialize `self` and insert it as the next sibling of
`kids[idx]`. -/
def Rsx.edit (r : Rsx) (kids : List LNode) (idx : Nat) (env : Env) :
    Option (List LNode × Env) :=
  match r with
  | .Element e =>
    match Elem.to_node e env with
    | none => none
    | some (new, env) =>
      match add_sibling kids idx new with
      | none => none
      | some kids => some (kids, env)
  | .Text t =>
    let id := env.nextId
    let new := LNode.text id t
    match add_sibling kids idx new with
    | none => none
    | some kids => some (kids, { env with nextId := id + 1 })
  | .Component _ => none

/-- `set_content`: build a brand-new text node, `replace_child` it over the
addressed node (retiring the replaced node's recall entry if it carried a
`rid`, via `replace_recall`), and repoint the reference at the new node. -/
def set_content (kids : List LNode) (idx : Nat) (content : String) (env : Env) :
    Option (List LNode × Nat × Env) :=
  match kids[idx]? with
  | none => none
  | some nd =>
    let id := env.nextId
    let tn := LNode.text id content
    let env := { env with nextId := id + 1, recalls := retireRid nd env.recalls }
    some (kids.set idx tn, idx, env)

/-! ### Sibling-list reconciliation -/

/-- The region-growth loop of `check_siblings` taken when the next sibling is
the `"/av"` end-of-region marker: every remaining virtual child is inserted
before the marker (`edit` inserts directly after the current node, the
reference then advances onto the inserted node). -/
def editRun (rest : List Rsx) (kids : List LNode) (idx : Nat) (env : Env) :
    Option (List LNode × Nat × Env) :=
  match rest with
  | [] => some (kids, idx, env)
  | c :: rest' =>
    match Rsx.edit c kids idx env with
    | none => none
    | some (kids, env) =>
      match kids[idx + 1]? with
      | none => none
      | some _ => editRun rest' kids (idx + 1) env

/-- The inner fallback loop of the plain-tail growth path (reached only when a
freshly inserted sibling is somehow absent): each remaining child is inserted
directly after the unmoved reference. -/
def editAll (rest : List Rsx) (kids : List LNode) (idx : Nat) (env : Env) :
    Option (List LNode × Nat × Env) :=
  match rest with
  | [] => some (kids, idx, env)
  | d :: rest' =>
    match Rsx.edit d kids idx env with
    | none => none
    | some (kids, env) => editAll rest' kids idx env

/-- The plain-tail growth loop of `check_siblings` (live side ran out of
siblings with virtual children left): advance onto the previously inserted
sibling and insert the next child after it. -/
def tailGrow (rest : List Rsx) (kids : List LNode) (idx : Nat) (env : Env) :
    Option (List LNode × Nat × Env) :=
  match rest with
  | [] => some (kids, idx, env)
  | c :: rest' =>
    match kids[idx + 1]? with
    | some _ =>
      match Rsx.edit c kids (idx + 1) env with
      | none => none
      | some (kids, env) => tailGrow rest' kids (idx + 1) env
    | none =>
      match Rsx.edit c kids idx env with
      | none => none
      | some (kids, env) => editAll rest' kids idx env

/-- The shrink loop of `check_siblings` (virtual children exhausted): each
remaining live sibling is put through `remove_recall`, which retires its recall
entry (if it is an element carrying a `rid`) and then detaches it. -/
def removeLoop (tailNodes : List LNode) (recalls : List (String × Nat)) :
    List (String × Nat) :=
  match tailNodes with
  | [] => recalls
  | c :: rest => removeLoop rest (retireRid c recalls)

mutual
/-- `update`: reconcile one virtual node against the live node `kids[idx]`.
An element diffs itself and then walks its children from the live node's first
child; a text node replaces the content; a component reconciles its children
at the current level. -/
def update (r : Rsx) (kids : List LNode) (idx : Nat) (env : Env) :
    Option (List LNode × Nat × Env) :=
  match r with
  | .Element (.mk nm ats cs) =>
    match Elem.diff (.mk nm ats cs) kids idx env with
    | none => none
    | some (kids, idx, env) =>
      match kids[idx]? with
      | none => none
      | some nd =>
        match nd.first_child with
        | none => some (kids, idx, env)
        | some _ =>
          match csLoop cs cs.length 0 nd.kids 0 env with
          | none => none
          | some (ckids, _, env) => some (kids.set idx (nd.setKids ckids), idx, env)
  | .Text t => set_content kids idx t env
  | .Component (.mk cs) => csLoop cs cs.length 0 kids idx env
termination_by (sizeOf r, 0)

/-- The main loop of `check_siblings`, with the iterator state made explicit:
`rest` is what remains of the virtual child list, `l` its original length, `n`
the number of children already processed.  When the children are exhausted,
every live sibling after the reference is removed one by one through
`remove_recall` (here: the child list is truncated after `idx` and the recall
entries of the removed nodes are retired by `removeLoop`). -/
def csLoop (rest : List Rsx) (l n : Nat) (kids : List LNode) (idx : Nat) (env : Env) :
    Option (List LNode × Nat × Env) :=
  match rest with
  | child :: rest' =>
    match update child kids idx env with
    | none => none
    | some (kids, idx, env) =>
      match kids[idx + 1]? with
      | some sib =>
        if isCloseAv sib then
          editRun rest' kids idx env
        else
          if n < l - 1 then csLoop rest' l (n + 1) kids (idx + 1) env
          else csLoop rest' l (n + 1) kids idx env
      | none =>
        if n < l - 1 then
          match Rsx.edit child kids idx env with
          | none => none
          | some (kids, env) => tailGrow rest' kids idx env
        else some (kids, idx, env)
  | [] =>
    some (kids.take (idx + 1), idx,
          { env with recalls := removeLoop (kids.drop (idx + 1)) env.recalls })
termination_by (sizeOf rest, 1)
end

/-- `check_siblings`: run the loop over the whole virtual child list. -/
def check_siblings (children : List Rsx) (kids : List LNode) (idx : Nat) (env : Env) :
    Option (List LNode × Nat × Env) :=
  csLoop children children.length 0 kids idx env

/-! ### Host entry points: `call` and `recall` -/

/-- `recall(rid)`: look the id up in the recall table; if present run its
invoker (logged) and report `true`, otherwise report `false`.  The table itself
is never changed. -/
def «recall» (rid : String) (env : Env) : Bool × Env :=
  match alLookup env.recalls rid with
  | some callId => (true, { env with log := env.log ++ [Event.invoke callId] })
  | none => (false, env)

/-- `call(callback, node_id)`: parse `name[args...]` (`split_once('[')` then
`rsplit_once(']')`, both `unwrap`ped — `none` models the panic), split the
argument field on spaces; an unknown name is a silent no-op that still returns
`Ok`.  A known name sets `NODE_ID` and `IDS`, runs the registered constructor
once (guarded and recorded by `is_mounted`) and then always runs the invoker. -/
def call (callback : String) (node_id : String) (env : Env) : Option Env :=
  match splitOnce callback '[' with
  | none => none
  | some (name, arr0) =>
    match rsplitOnce arr0 ']' with
    | none => none
    | some (arr1, _) =>
      let arr := splitChar arr1 ' '
      match alLookup env.callbacks name with
      | none => some env
      | some cb =>
        let env := { env with node_id := node_id, ids := arr }
        let env :=
          if cb.is_mounted then env
          else { env with
            callbacks := setMounted env.callbacks name,
            log := env.log ++ [Event.construct cb.newId node_id] }
        some { env with log := env.log ++ [Event.invoke cb.callId] }

/-! ## Supporting lemmas -/

theorem alLookup_alRemove {β : Type} (m : List (String × β)) (k k' : String) :
    alLookup (alRemove m k) k' = if k' = k then none else alLookup m k' := by
  induction m with
  | nil => simp [alRemove, alLookup]
  | cons p rest ih =>
    rw [show alRemove (p :: rest) k =
          if !(p.1 == k) then p :: alRemove rest k else alRemove rest k from
        List.filter_cons]
    by_cases h1 : p.1 = k
    · rw [if_neg (by simp [h1]), ih]
      by_cases h2 : k' = k
      · simp [h2]
      · have hne : (p.1 == k') = false := by
          simp only [h1, beq_eq_false_iff_ne, ne_eq]
          exact fun hh => h2 hh.symm
        simp [h2, alLookup, hne]
    · rw [if_pos (by simp [h1])]
      by_cases h2 : p.1 = k'
      · have hkk : ¬ k' = k := fun hh => h1 (hh ▸ h2)
        simp [alLookup, h2, hkk]
      · have hne : (p.1 == k') = false := by simp [h2]
        simp [alLookup, hne, ih]

def ridsOf (l : List LNode) : List String := l.filterMap ridOf

theorem alLookup_removeLoop (tailNodes : List LNode) (r : List (String × Nat))
    (k : String) :
    alLookup (removeLoop tailNodes r) k =
      if k ∈ ridsOf tailNodes then none else alLookup r k := by
  induction tailNodes generalizing r with
  | nil => simp [removeLoop, ridsOf]
  | cons c rest ih =>
    rw [removeLoop, ih]
    cases hro : ridOf c with
    | none =>
      have hr : ridsOf (c :: rest) = ridsOf rest := by
        simp [ridsOf, List.filterMap_cons, hro]
      rw [hr, retireRid, hro]
    | some rid =>
      have hr : ridsOf (c :: rest) = rid :: ridsOf rest := by
        simp [ridsOf, List.filterMap_cons, hro]
      rw [hr, retireRid, hro, alLookup_alRemove]
      by_cases hmem : k ∈ ridsOf rest
      · simp [hmem]
      · by_cases hk : k = rid
        · simp [hk, hmem]
        · simp [hk, hmem]

theorem insertAt_getElem_self {α : Type} (l : List α) (i : Nat) (x : α)
    (h : i ≤ l.length) : (insertAt l i x)[i]? = some x := by
  rw [insertAt, List.getElem?_append_right (by simp [List.length_take])]
  simp [List.length_take, Nat.min_eq_left h]

theorem insertAt_getElem_succ {α : Type} (l : List α) (i : Nat) (x : α)
    (h : i ≤ l.length) : (insertAt l i x)[i + 1]? = l[i]? := by
  rw [insertAt, List.getElem?_append_right (by simp [List.length_take])]
  have hlen : i + 1 - (l.take i).length = 1 := by
    simp [List.length_take]
    omega
  rw [hlen]
  have hd := List.getElem?_drop l i 0
  simp at hd
  simp [hd]

/-! ## Claims -/

/-- Claim C1: reconciling an element virtual node through `Elem::diff` against a
live element node with the same tag name and an identical attribute set (same
count and, for every attribute key, the same value, in any order) performs no
mutation: the live child list, the reference, and the whole registry state come
back unchanged. -/
theorem elem_diff_noop (e : Elem) (kids : List LNode) (idx : Nat) (env : Env)
    (i : Nat) (t : String) (lattrs : List Attribute) (lkids : List LNode)
    (hnd : kids[idx]? = some (LNode.elem i t lattrs lkids))
    (htag : e.name = t)
    (hlen : e.attrs.length = lattrs.length)
    (_hvals : ∀ a ∈ e.attrs, getNamedItem lattrs a.key = some a.value) :
    Elem.diff e kids idx env = some (kids, idx, env) := by
  rw [Elem.diff, hnd]
  simp [LNode.node_name, htag, hlen]

def envW : Env :=
  { callbacks := [], recalls := [], node_id := "", ids := [], rid := 0,
    nextId := 0, log := [] }

theorem elem_diff_noop_witness :
    Elem.diff (.mk "div" [⟨"class", "x"⟩] []) [LNode.elem 0 "div" [⟨"class", "x"⟩] []]
        0 envW =
      some ([LNode.elem 0 "div" [⟨"class", "x"⟩] []], 0, envW) :=
  elem_diff_noop (.mk "div" [⟨"class", "x"⟩] [])
    [LNode.elem 0 "div" [⟨"class", "x"⟩] []] 0 envW 0 "div" [⟨"class", "x"⟩] []
    (by rfl) (by rfl) (by rfl) (by decide)

/-- Claim C9: in the attribute scan of `Elem::diff` a virtual attribute key
that is entirely absent from the live node is not treated as a mismatch — the
equality check only compares values for keys the live node has — so with equal
attribute counts the diff leaves the live node unchanged even though the two
attribute sets differ in their keys. -/
theorem elem_diff_absent_key (e : Elem) (kids : List LNode) (idx : Nat) (env : Env)
    (i : Nat) (t : String) (lattrs : List Attribute) (lkids : List LNode)
    (hnd : kids[idx]? = some (LNode.elem i t lattrs lkids))
    (htag : e.name = t)
    (hlen : e.attrs.length = lattrs.length)
    (_habsent : ∃ a ∈ e.attrs, getNamedItem lattrs a.key = none)
    (hpresent : ∀ a ∈ e.attrs, ∀ v, getNamedItem lattrs a.key = some v → v = a.value) :
    sameAttrs e.attrs lattrs = true ∧
      Elem.diff e kids idx env = some (kids, idx, env) := by
  constructor
  · rw [sameAttrs, List.all_eq_true]
    intro a ha
    cases hg : getNamedItem lattrs a.key with
    | none => rfl
    | some v => simp [hpresent a ha v hg]
  · rw [Elem.diff, hnd]
    simp [LNode.node_name, htag, hlen]

theorem elem_diff_absent_key_witness :
    sameAttrs [⟨"a", "1"⟩] [⟨"b", "2"⟩] = true ∧
      Elem.diff (.mk "div" [⟨"a", "1"⟩] []) [LNode.elem 0 "div" [⟨"b", "2"⟩] []] 0 envW =
        some ([LNode.elem 0 "div" [⟨"b", "2"⟩] []], 0, envW) :=
  elem_diff_absent_key (.mk "div" [⟨"a", "1"⟩] [])
    [LNode.elem 0 "div" [⟨"b", "2"⟩] []] 0 envW 0 "div" [⟨"b", "2"⟩] []
    (by rfl) (by rfl) (by rfl) ⟨⟨"a", "1"⟩, by decide, by decide⟩ (by decide)

def env2c : Env :=
  { callbacks := [], recalls := [("4", 10), ("7", 11)], node_id := "", ids := [],
    rid := 0, nextId := 3, log := [] }

def kids2c : List LNode :=
  [LNode.text 0 "old",
   LNode.elem 1 "div" [⟨"rid", "4"⟩] [],
   LNode.elem 2 "span" [⟨"rid", "7"⟩] []]

/-- Claim C2: when the virtual children are exhausted in sibling-list
reconciliation but live siblings remain after the current node, every remaining
live sibling is removed and, for each removed element carrying a `rid`
attribute, the recall entry keyed by that rid is retired (the lookup
characterization); in particular a 1-child virtual list against 3 live siblings
removes exactly the 2 trailing siblings and retires their recall entries. -/
theorem check_siblings_shrink :
    (∀ (kids : List LNode) (idx : Nat) (env : Env),
      check_siblings [] kids idx env =
        some (kids.take (idx + 1), idx,
              { env with recalls := removeLoop (kids.drop (idx + 1)) env.recalls })) ∧
    (∀ (l n : Nat) (kids : List LNode) (idx : Nat) (env : Env),
      csLoop [] l n kids idx env =
        some (kids.take (idx + 1), idx,
              { env with recalls := removeLoop (kids.drop (idx + 1)) env.recalls })) ∧
    (∀ (tailNodes : List LNode) (r : List (String × Nat)) (k : String),
      alLookup (removeLoop tailNodes r) k =
        if k ∈ ridsOf tailNodes then none else alLookup r k) ∧
    (check_siblings [Rsx.Text "hi"] kids2c 0 env2c =
      some ([LNode.text 3 "hi"], 0, { env2c with nextId := 4, recalls := [] })) := by
  refine ⟨?_, ?_, alLookup_removeLoop, ?_⟩
  · intro kids idx env
    rw [check_siblings, csLoop]
  · intro l n kids idx env
    rw [csLoop]
  · simp only [check_siblings, csLoop, update, set_content]
    rfl

def env8 : Env :=
  { callbacks := [("clickCb", { newId := 1, callId := 9, is_mounted := true })],
    recalls := [("2", 77)], node_id := "", ids := [], rid := 5, nextId := 10,
    log := [] }

def kids8 : List LNode := [LNode.elem 0 "div" [⟨"rid", "2"⟩] []]

def espan8 : Elem := .mk "span" [⟨"on:click", "clickCb[3]"⟩] []

/-- Claim C8: when `Elem::diff` meets a live node of a different tag it
materializes the complete new tree from the virtual element via
`Elem::to_node` (children and `on:`-driven recall registrations included),
inserts it immediately before the old node, and repoints the reference to the
new node, the old node becoming its next sibling; in the concrete
span-against-div run the old node is then detected as surplus by sibling-list
processing, which detaches it and retires its recall entry, while the new
span's own `on:` recall registration survives. -/
theorem elem_diff_replace :
    (∀ (e : Elem) (kids : List LNode) (idx : Nat) (env : Env) (nd new : LNode)
       (env' : Env),
      kids[idx]? = some nd →
      e.name ≠ nd.node_name →
      Elem.to_node e env = some (new, env') →
      Elem.diff e kids idx env = some (insertAt kids idx new, idx, env') ∧
      (insertAt kids idx new)[idx]? = some new ∧
      (insertAt kids idx new)[idx + 1]? = some nd) ∧
    (check_siblings [Rsx.Element espan8] kids8 0 env8 =
      some ([LNode.elem 10 "span" [⟨"rid", "5"⟩] []], 0,
            { env8 with nextId := 11, rid := 6, recalls := [("5", 9)] })) := by
  constructor
  · intro e kids idx env nd new env' hnd htag hto
    have hlt : idx < kids.length := by
      rcases List.getElem?_eq_some.mp hnd with ⟨h, _⟩
      exact h
    have hbeq : (e.name == nd.node_name) = false := by simp [htag]
    refine ⟨?_, insertAt_getElem_self kids idx new (Nat.le_of_lt hlt), ?_⟩
    · simp [Elem.diff, hnd, hbeq, hto]
    · rw [insertAt_getElem_succ kids idx new (Nat.le_of_lt hlt), hnd]
  · simp only [check_siblings, csLoop, update, espan8]
    rfl

theorem elem_diff_replace_witness :
    Elem.diff (.mk "span" [] []) [LNode.elem 7 "div" [] []] 0 envW =
      some (insertAt [LNode.elem 7 "div" [] []] 0 (LNode.elem 0 "span" [] []), 0,
            { envW with nextId := 1 }) ∧
    (insertAt [LNode.elem 7 "div" [] []] 0 (LNode.elem 0 "span" [] []))[0]? =
      some (LNode.elem 0 "span" [] []) ∧
    (insertAt [LNode.elem 7 "div" [] []] 0 (LNode.elem 0 "span" [] []))[0 + 1]? =
      some (LNode.elem 7 "div" [] []) :=
  elem_diff_replace.1 (.mk "span" [] []) [LNode.elem 7 "div" [] []] 0 envW
    (LNode.elem 7 "div" [] []) (LNode.elem 0 "span" [] []) { envW with nextId := 1 }
    (by rfl) (by decide) (by simp only [Elem.to_node, procAttrs, toNodeList]; rfl)

def st3 : AppState := { objs := [Obj.Js "7", Obj.Js "8"], subs := [[(3, 0)], [(5, 1)]] }

/-- Claim C3: `Signal::resume` consumes the AppState subscriber-list stack in
reverse append order — each resume call pops the most recently appended
subscriber list off `AppState.subs` and seeds the proxy from it; for a subs
table `[[(3,0)],[(5,1)]]` the first signal resumed receives `(5,1)` and the
second receives `(3,0)`. -/
theorem signal_resume_pops_last :
    (∀ (store : AppState) (n : Nat) (sig : Signal) (store' : AppState),
      Signal.resume store n = some (sig, store') →
      store'.subs = store.subs.dropLast ∧ store'.objs = store.objs ∧
      ∃ lastSubs, store.subs.getLast? = some lastSubs ∧
        lastSubs[0]? = some sig._proxy._sub) ∧
    (Signal.resume st3 0 =
      some ({ _proxy := SignalProxy.from (5, 1), value := "7" },
            { objs := [Obj.Js "7", Obj.Js "8"], subs := [[(3, 0)]] }) ∧
     Signal.resume { objs := [Obj.Js "7", Obj.Js "8"], subs := [[(3, 0)]] } 1 =
      some ({ _proxy := SignalProxy.from (3, 0), value := "8" },
            { objs := [Obj.Js "7", Obj.Js "8"], subs := [] })) := by
  constructor
  · intro store n sig store' h
    rw [Signal.resume] at h
    split at h
    next v heq =>
      split at h
      next subs heqL =>
        split at h
        next sub heq0 =>
          injection h with h
          injection h with h1 h2
          subst h2
          refine ⟨rfl, rfl, subs, heqL, ?_⟩
          rw [heq0, ← h1]
          rfl
        next => exact absurd h (by simp)
      next => exact absurd h (by simp)
    next => exact absurd h (by simp)
  · exact ⟨by decide, by decide⟩

theorem signal_resume_pops_last_witness :
    ∃ lastSubs, st3.subs.getLast? = some lastSubs ∧
      lastSubs[0]? = some ((5 : Nat), (1 : Int)) := by
  obtain ⟨-, -, l, hl, h0⟩ :=
    signal_resume_pops_last.1 st3 0
      { _proxy := SignalProxy.from (5, 1), value := "7" }
      { objs := [Obj.Js "7", Obj.Js "8"], subs := [[(3, 0)]] } (by decide)
  exact ⟨l, hl, h0⟩

theorem intLor_natCast (a b : Nat) :
    Int.lor (a : Int) (b : Int) = ((a.lor b : Nat) : Int) := rfl

/-- Claim C4: for a `Proxy` that is not learning, `set(n)` replaces the clean
sentinel `-1` by `0` and then ORs `n` into the dirty bitmask; successive calls
accumulate (dirty `-1`, `set 1`, `set 2` yields `3`), no generation flag set by
an earlier call is lost by a later one, and no flag already present in a
non-negative dirty mask is lost either. -/
theorem proxy_set_accumulates :
    (∀ (p : Proxy) (n : Int), p._learning = false →
      p.set n = { p with _dirty := Int.lor (if p._dirty = -1 then 0 else p._dirty) n }) ∧
    (∀ (p : Proxy) (a b : Nat), p._learning = false → p._dirty = -1 →
      ((p.set (a : Int)).set (b : Int))._dirty = ((a.lor b : Nat) : Int) ∧
      ∀ i, a.testBit i = true →
        (((p.set (a : Int)).set (b : Int))._dirty).toNat.testBit i = true) ∧
    (∀ (p : Proxy) (n : Int), p._learning = false → 0 ≤ p._dirty → 0 ≤ n →
      ∀ i, p._dirty.toNat.testBit i = true →
        ((p.set n)._dirty).toNat.testBit i = true) ∧
    (((Proxy.new []).set 1).set 2)._dirty = 3 := by
  have hset : ∀ (p : Proxy) (n : Int), p._learning = false →
      p.set n = { p with _dirty := Int.lor (if p._dirty = -1 then 0 else p._dirty) n } := by
    intro p n h
    rw [Proxy.set, if_neg (by simp [h])]
  refine ⟨hset, ?_, ?_, by decide⟩
  · intro p a b hl hd
    have h1 : (p.set (a : Int))._dirty = (a : Int) := by
      rw [hset p _ hl]
      simp only [hd, if_pos]
      have h0 : ((0 : Nat) : Int) = (0 : Int) := rfl
      rw [← h0, intLor_natCast]
      show ((0 ||| a : Nat) : Int) = (a : Int)
      rw [Nat.zero_or]
    have hl1 : (p.set (a : Int))._learning = false := by
      rw [hset p _ hl]
      exact hl
    have h2 : ((p.set (a : Int)).set (b : Int))._dirty = ((a.lor b : Nat) : Int) := by
      rw [hset _ _ hl1, h1]
      have hne : ¬ ((a : Int) = -1) := by omega
      simp only [hne, if_false]
      exact intLor_natCast a b
    refine ⟨h2, ?_⟩
    intro i hi
    rw [h2]
    show ((a ||| b : Nat) : Int).toNat.testBit i = true
    rw [Int.toNat_natCast, Nat.testBit_lor, hi]
    rfl
  · intro p n hl hd hn i hi
    rw [hset p n hl]
    have hd' : ¬ (p._dirty = -1) := by omega
    simp only [hd', if_false]
    obtain ⟨d, hdeq⟩ : ∃ d : Nat, p._dirty = (d : Int) :=
      ⟨p._dirty.toNat, (Int.toNat_of_nonneg hd).symm⟩
    obtain ⟨m, hmeq⟩ : ∃ m : Nat, n = (m : Int) :=
      ⟨n.toNat, (Int.toNat_of_nonneg hn).symm⟩
    rw [hdeq, hmeq, intLor_natCast]
    show ((d ||| m : Nat) : Int).toNat.testBit i = true
    rw [Int.toNat_natCast, Nat.testBit_lor]
    rw [hdeq, Int.toNat_natCast] at hi
    rw [hi]
    rfl

theorem proxy_set_accumulates_witness :
    (((Proxy.new []).set ((1 : Nat) : Int)).set ((2 : Nat) : Int))._dirty =
      ((Nat.lor 1 2 : Nat) : Int) :=
  (proxy_set_accumulates.2.1 (Proxy.new []) 1 2 (by decide) (by decide)).1

def v5c : RefVec String :=
  { items := [⟨0, "a"⟩, ⟨1, "b"⟩, ⟨2, "c"⟩, ⟨3, "d"⟩] }

/-- Claim C5: for every `RefVec` and every in-range index `i`, `remove(i)`
detaches and returns the element that was at index `i`, rebuilding the vector
as the prefix before `i` followed by the suffix after `i` with every position
field decremented by exactly one; under the collection invariant (position =
index) the remaining positions are again `0,1,2,...`, so relative order is
preserved — removing position 1 from a 4-element collection leaves position
fields `[0,1,2]`. -/
theorem refvec_remove_reindex :
    (∀ (α : Type) (v : RefVec α) (i : Nat), i < v.items.length →
      v.items.map RefChildData.pos = List.range v.items.length →
      ∃ c, v.items[i]? = some c ∧
        RefVec.remove v i =
          some (c, { items := v.items.take i ++
                       (v.items.drop (i + 1)).map (fun d => { d with pos := d.pos - 1 }) }) ∧
        (∀ (j : Nat) (c' : RefChildData α), (v.items.take i ++
            (v.items.drop (i + 1)).map (fun d => { d with pos := d.pos - 1 }))[j]? = some c' →
          c'.pos = j)) ∧
    (RefVec.remove v5c 1 =
      some (⟨1, "b"⟩, { items := [⟨0, "a"⟩, ⟨1, "c"⟩, ⟨2, "d"⟩] }) ∧
     ([⟨0, "a"⟩, ⟨1, "c"⟩, ⟨2, "d"⟩] : List (RefChildData String)).map RefChildData.pos
       = [0, 1, 2]) := by
  constructor
  · intro α v i hi hmap
    have hinv : ∀ (j : Nat) (c : RefChildData α), v.items[j]? = some c → c.pos = j := by
      intro j c hc
      have hlt : j < v.items.length := (List.getElem?_eq_some.mp hc).1
      have h1 : (v.items.map RefChildData.pos)[j]? = some c.pos := by
        rw [List.getElem?_map, hc]
        rfl
      rw [hmap, List.getElem?_range hlt] at h1
      injection h1 with h1
      exact h1.symm
    have hi1 : i + 1 ≤ v.items.length := hi
    have hlen : (v.items.take (i + 1)).length = i + 1 := by
      rw [List.length_take]
      omega
    have hgl : (v.items.take (i + 1)).getLast? = some v.items[i] := by
      rw [List.getLast?_eq_getElem?, hlen, Nat.add_sub_cancel,
        List.getElem?_take_of_lt (Nat.lt_succ_self i)]
      exact List.getElem?_eq_getElem hi
    have hdl : (v.items.take (i + 1)).dropLast = v.items.take i := by
      rw [List.dropLast_eq_take, hlen, Nat.add_sub_cancel, List.take_take,
        Nat.min_eq_left (Nat.le_succ i)]
    refine ⟨v.items[i], List.getElem?_eq_getElem hi, ?_, ?_⟩
    · rw [RefVec.remove, if_pos hi1]
      simp only [hgl, hdl]
    · intro j c' hj
      have hlti : (v.items.take i).length = i := by
        rw [List.length_take]
        omega
      by_cases hcase : j < i
      · rw [List.getElem?_append_left (by rw [hlti]; exact hcase),
          List.getElem?_take_of_lt hcase] at hj
        exact hinv j c' hj
      · rw [List.getElem?_append_right (by rw [hlti]; omega), hlti,
          List.getElem?_map, List.getElem?_drop] at hj
        cases hd : v.items[i + 1 + (j - i)]? with
        | none => rw [hd] at hj; cases hj
        | some d =>
          rw [hd] at hj
          injection hj with hj
          have hdp : d.pos = i + 1 + (j - i) := hinv _ d hd
          rw [← hj]
          simp only [hdp]
          omega
  · exact ⟨by decide, by decide⟩

theorem refvec_remove_reindex_witness :
    ∃ c, v5c.items[1]? = some c ∧
      RefVec.remove v5c 1 =
        some (c, { items := v5c.items.take 1 ++
          (v5c.items.drop 2).map (fun d => { d with pos := d.pos - 1 }) }) := by
  obtain ⟨c, h1, h2, -⟩ := refvec_remove_reindex.1 String v5c 1 (by decide) (by decide)
  exact ⟨c, h1, h2⟩

theorem alLookup_setMounted (m : List (String × CallbackData)) (k : String)
    (cb : CallbackData) (h : alLookup m k = some cb) :
    alLookup (setMounted m k) k = some { cb with is_mounted := true } := by
  induction m with
  | nil => cases h
  | cons p rest ih =>
    by_cases h1 : p.1 = k
    · rw [alLookup, if_pos (by simp [h1])] at h
      injection h with h
      rw [setMounted, List.map_cons, if_pos (by simp [h1]), alLookup,
        if_pos (by simp [h1]), h]
    · rw [alLookup, if_neg (by simp [h1])] at h
      rw [setMounted, List.map_cons, if_neg (by simp [h1]), alLookup,
        if_neg (by simp [h1])]
      exact ih h

/-- Claim C6: `call(descriptor, nodeId)` parses the descriptor as a name plus a
bracketed space-separated argument list; an unknown name performs no dispatch
and changes no state while still returning success; a known name sets the
active node id and argument list, runs the registration's constructor exactly
once across invocations (guarded by the `is_mounted` flag, which it sets) and
then always executes the invoker. -/
theorem call_dispatch :
    (∀ (cbk nid : String) (env : Env) (name arr0 arr1 r : String),
      splitOnce cbk '[' = some (name, arr0) →
      rsplitOnce arr0 ']' = some (arr1, r) →
      alLookup env.callbacks name = none →
      call cbk nid env = some env) ∧
    (∀ (cbk nid : String) (env : Env) (name arr0 arr1 r : String)
       (cb : CallbackData),
      splitOnce cbk '[' = some (name, arr0) →
      rsplitOnce arr0 ']' = some (arr1, r) →
      alLookup env.callbacks name = some cb →
      ∃ env', call cbk nid env = some env' ∧
        env'.node_id = nid ∧
        env'.ids = splitChar arr1 ' ' ∧
        env'.recalls = env.recalls ∧
        alLookup env'.callbacks name = some { cb with is_mounted := true } ∧
        (cb.is_mounted = true →
          env'.callbacks = env.callbacks ∧
          env'.log = env.log ++ [Event.invoke cb.callId]) ∧
        (cb.is_mounted = false →
          env'.callbacks = setMounted env.callbacks name ∧
          env'.log = env.log ++ [Event.construct cb.newId nid, Event.invoke cb.callId])) := by
  constructor
  · intro cbk nid env name arr0 arr1 r h1 h2 h3
    simp only [call, h1, h2, h3]
  · intro cbk nid env name arr0 arr1 r cb h1 h2 h3
    cases hm : cb.is_mounted with
    | true =>
      simp only [call, h1, h2, h3, hm, if_pos]
      refine ⟨_, rfl, rfl, rfl, rfl, ?_, fun _ => ⟨rfl, rfl⟩, fun hff => nomatch hff⟩
      show alLookup env.callbacks name = some { cb with is_mounted := true }
      rw [h3]
      cases cb
      simp_all
    | false =>
      simp only [call, h1, h2, h3, hm, Bool.false_eq_true, if_false]
      refine ⟨_, rfl, rfl, rfl, rfl, ?_, fun htt => False.elim htt, fun _ => ⟨rfl, by simp⟩⟩
      show alLookup (setMounted env.callbacks name) name = some { cb with is_mounted := true }
      exact alLookup_setMounted env.callbacks name cb h3

def envC6 : Env :=
  { callbacks := [("onClick", { newId := 4, callId := 5, is_mounted := false })],
    recalls := [], node_id := "", ids := [], rid := 0, nextId := 0, log := [] }

theorem call_dispatch_witness :
    ∃ env', call "onClick[12 7-3]" "9" envC6 = some env' ∧
      env'.node_id = "9" ∧ env'.ids = ["12", "7-3"] := by
  obtain ⟨env', h1, h2, h3, -⟩ :=
    call_dispatch.2 "onClick[12 7-3]" "9" envC6 "onClick" "12 7-3]" "12 7-3" ""
      { newId := 4, callId := 5, is_mounted := false }
      (by decide) (by decide) (by decide)
  refine ⟨env', h1, h2, ?_⟩
  rw [h3]
  decide

/-- Claim C7: `recall(rid)` returns `true` exactly when `rid` is a key of the
recall registry at call time, and executes the registered invoker exactly when
it returns `true`; when `rid` is absent it returns `false` and leaves the
whole state — the recall registry in particular — unchanged. -/
theorem recall_found_iff :
    ∀ (rid : String) (env : Env),
      (((«recall» rid env).1 = true) ↔ (alLookup env.recalls rid).isSome) ∧
      ((«recall» rid env).2.recalls = env.recalls) ∧
      (∀ c, alLookup env.recalls rid = some c →
        «recall» rid env = (true, { env with log := env.log ++ [Event.invoke c] })) ∧
      (alLookup env.recalls rid = none → «recall» rid env = (false, env)) := by
  intro rid env
  cases h : alLookup env.recalls rid with
  | none =>
    refine ⟨?_, ?_, ?_, fun _ => ?_⟩ <;> simp [«recall», h]
  | some c =>
    refine ⟨?_, ?_, ?_, fun hh => nomatch hh⟩ <;>
      simp [«recall», h]

def envC7 : Env :=
  { callbacks := [], recalls := [("4", 10)], node_id := "", ids := [], rid := 0,
    nextId := 0, log := [] }

theorem recall_found_iff_witness :
    «recall» "4" envC7 = (true, { envC7 with log := [Event.invoke 10] }) ∧
      «recall» "9" envC7 = (false, envC7) :=
  ⟨(recall_found_iff "4" envC7).2.2.1 10 (by decide),
   (recall_found_iff "9" envC7).2.2.2 (by decide)⟩

theorem splitOnceAux_eq_none (l : List Char) (ch : Char) (h : ch ∉ l) :
    splitOnceAux l ch = none := by
  induction l with
  | nil => rfl
  | cons c cs ih =>
    rw [splitOnceAux, if_neg (by simp_all [eq_comm]),
      ih (fun hm => h (List.mem_cons_of_mem c hm))]

theorem rsplitOnceAux_eq_none (l : List Char) (ch : Char) (h : ch ∉ l) :
    rsplitOnceAux l ch = none := by
  induction l with
  | nil => rfl
  | cons c cs ih =>
    rw [rsplitOnceAux, ih (fun hm => h (List.mem_cons_of_mem c hm)),
      if_neg (by simp_all [eq_comm])]

/-- Claim C10: a descriptor with no `[`, or with no `]` after the first `[`,
makes `call` abort through the `unwrap` panic — modelled as `none` — before any
registry lookup or state change, instead of returning a recoverable value. -/
theorem call_malformed_panics :
    ∀ (cbk nid : String) (env : Env),
      (('[' ∉ cbk.toList) → call cbk nid env = none) ∧
      (∀ (name arr0 : String), splitOnce cbk '[' = some (name, arr0) →
        (']' ∉ arr0.toList) → call cbk nid env = none) := by
  intro cbk nid env
  constructor
  · intro h
    rw [call]
    rw [show splitOnce cbk '[' = none by
      rw [splitOnce, splitOnceAux_eq_none cbk.toList '[' h]]
  · intro name arr0 h1 h2
    simp only [call, h1,
      show rsplitOnce arr0 ']' = none by
        rw [rsplitOnce, rsplitOnceAux_eq_none arr0.toList ']' h2]]

theorem call_malformed_panics_witness :
    call "nobrackets" "1" envW = none ∧ call "name[3" "1" envW = none :=
  ⟨(call_malformed_panics "nobrackets" "1" envW).1 (by decide),
   (call_malformed_panics "name[3" "1" envW).2 "name" "3" (by decide) (by decide)⟩
